import Mathlib

/-!
Verification of the string-object runtime fragments: the `Str` layout helpers
in `mycpp/str_types.h` (`len`, `Str::SetObjLenFromStrLen`, the default
constructor) and the two path helpers in `cpp/leaky_pylib.cc`
(`os_path::rstrip_slashes`, `path_stat::exists`).

Modelling conventions:
- A `Str` is the header-relevant state of the C++ object: `obj_len_` (the
  total object length stored in the `Obj` header), `hash_value_`, and `data_`,
  the byte region of the allocation starting at the flexible array member
  (payload bytes plus the NUL slot and whatever follows). Bytes are `Nat`.
- `kStrHeaderSize = offsetof(Str, data_)`. The `Obj` base class is outside
  the sources; its layout (8-byte header) plus the 4-byte `hash_value_` field
  gives 12. Every theorem below is insensitive to the exact positive value.
- C++ `int` fields are modelled as `Int`.
- The `assert` in `len` is modelled by the predicate `lenOk` and the fallible
  `len?`; `strLen` is the value `len` computes when the assertion passes.
- `rstrip_slashes` returns a pair: the `Bool` records whether the function
  allocated a fresh `Str` (`true`) or returned its argument (`false`), so that
  the no-allocation / same-reference contracts are observable in the model.
- The `stat` system call in `path_stat::exists` is a parameter returning
  `(return value, errno)`; the C code inspects only the sign of the return
  value.
-/

namespace OilStr

/-- `offsetof(Str, data_)`: the `Obj` header plus the `hash_value_` field. -/
def kStrHeaderSize : Int := 12

/-- The header-relevant state of the C++ `Str` object. `data_` is the byte
region of the allocation from the flexible array member onward. -/
structure Str where
  obj_len_ : Int
  hash_value_ : Int
  data_ : List Nat
deriving DecidableEq, Repr

/-- The value `len` computes: `obj_len_ - kStrHeaderSize - 1`. -/
def strLen (s : Str) : Int :=
  s.obj_len_ - kStrHeaderSize - 1

/-- The assertion guarding `len`: `assert(s->obj_len_ >= kStrHeaderSize - 1)`. -/
def lenOk (s : Str) : Prop :=
  s.obj_len_ ≥ kStrHeaderSize - 1

instance (s : Str) : Decidable (lenOk s) :=
  inferInstanceAs (Decidable (s.obj_len_ ≥ kStrHeaderSize - 1))

/-- `len` as a fallible function: `none` when the assertion fires. -/
def len? (s : Str) : Option Int :=
  if s.obj_len_ ≥ kStrHeaderSize - 1 then some (s.obj_len_ - kStrHeaderSize - 1) else none

/-- `Str::SetObjLenFromStrLen`: sets `obj_len_ = kStrHeaderSize + str_len + 1`
and touches nothing else (in particular it does not write into `data_`). -/
def SetObjLenFromStrLen (s : Str) (str_len : Int) : Str :=
  { s with obj_len_ := kStrHeaderSize + str_len + 1 }

/-- The default constructor `Str() : Obj(Tag::Opaque, kZeroMask, 0)`: it sets
`obj_len_ = 0`; `hash_value_` and the flexible array are uninitialized, so the
model takes them as parameters. -/
def mkDefaultStr (hash : Int) (data : List Nat) : Str :=
  { obj_len_ := 0, hash_value_ := hash, data_ := data }

/-- Well-formed string object: non-negative string length, and the byte region
at `data_` is exactly the payload plus the one NUL slot
(`obj_len_ = kStrHeaderSize + len + 1`). -/
def WF (s : Str) : Prop :=
  0 ≤ strLen s ∧ (s.data_.length : Int) = strLen s + 1

instance (s : Str) : Decidable (WF s) :=
  inferInstanceAs (Decidable (0 ≤ strLen s ∧ (s.data_.length : Int) = strLen s + 1))

/-- The byte payload of a string object: the first `len` bytes of `data_`. -/
def payload (s : Str) : List Nat :=
  s.data_.take (strLen s).toNat

/-- The NUL-termination invariant: `data_[len] == 0`. -/
def NulOk (s : Str) : Prop :=
  s.data_.getD (strLen s).toNat 0 = 0

instance (s : Str) : Decidable (NulOk s) :=
  inferInstanceAs (Decidable (s.data_.getD (strLen s).toNat 0 = 0))

/-- Modelled from the spec: the two-argument constructor `Str(buf, new_len)`
invoked at the end of `rstrip_slashes` is declared outside the given sources.
Per the spec's construction contract (§4.1), building from a byte range
allocates `header_size + n + 1` bytes, copies the bytes, writes the trailing
NUL and starts with `hash_value = 0`. -/
def mkStrFromBytes (bytes : List Nat) : Str :=
  { obj_len_ := kStrHeaderSize + bytes.length + 1
    hash_value_ := 0
    data_ := bytes ++ [0] }

/-- The right-to-left scan in `rstrip_slashes`: `for (i = n - 1; i >= 0; i--)`,
decrementing `new_len` while `data_[i] == '/'` (byte 47) and breaking at the
first other byte. The second argument is the current `new_len`, the third is
`i + 1` (so `0` means the loop has run past index 0). -/
def scanLoop (data : List Nat) : Nat → Nat → Nat
  | new_len, 0 => new_len
  | new_len, i + 1 =>
    if data.getD i 0 = 47 then scanLoop data (new_len - 1) i else new_len

/-- The number of consecutive slash bytes the scan in `rstrip_slashes` sees
before its first break, reading indices `i - 1, i - 2, ...` downward. Used to
characterize `scanLoop`. -/
def revScan (data : List Nat) : Nat → Nat
  | 0 => 0
  | i + 1 => if data.getD i 0 = 47 then revScan data i + 1 else 0

/-- `os_path::rstrip_slashes`. The first component records whether a fresh
`Str` was allocated (`false` on the two `return s;` paths). `n = len(s)` and
`new_len = scanLoop data_ n n` mirror the source's locals. -/
def rstrip_slashes (s : Str) : Bool × Str :=
  if strLen s = 0 then (false, s)
  else if scanLoop s.data_ (strLen s).toNat (strLen s).toNat = 0 then (false, s)
  else (true, mkStrFromBytes (s.data_.take (scanLoop s.data_ (strLen s).toNat (strLen s).toNat)))

/-- The NUL-terminated C string starting at a byte region: the bytes up to the
first 0, as read by `::stat(path->data_, ...)`. -/
def cstr (l : List Nat) : List Nat :=
  l.takeWhile (fun b => !(b == 0))

namespace path_stat

/-- `path_stat::exists`: probe the NUL-terminated payload with `stat` and
flatten any failure (negative return value) to `false`. The probe is a
parameter producing `(return value, errno)`. -/
def exists_ (stat : List Nat → Int × Int) (path : Str) : Bool :=
  if (stat (cstr path.data_)).1 < 0 then false else true

end path_stat

/-- Spec-side description for C1: the payload with all trailing slash bytes
(47) removed. -/
def dropTrailingSlashes (p : List Nat) : List Nat :=
  (p.reverse.dropWhile (fun b => b == 47)).reverse

/-- The number of trailing slash bytes of a payload. -/
def trailCount (p : List Nat) : Nat :=
  (p.reverse.takeWhile (fun b => b == 47)).length

/-- Spec-side description of the full result payload of `rstrip_slashes`:
trailing slashes removed, except that an all-slashes (or empty) payload is
kept whole. -/
def rstripSpec (p : List Nat) : List Nat :=
  if dropTrailingSlashes p = [] then p else dropTrailingSlashes p

/-- Concrete strings used as witnesses. -/
def strSlashAB : Str :=
  { obj_len_ := 19, hash_value_ := 0, data_ := [47, 97, 47, 98, 47, 47, 0] }

def strSlashes3 : Str :=
  { obj_len_ := 16, hash_value_ := 0, data_ := [47, 47, 47, 0] }

def strAbc : Str :=
  { obj_len_ := 16, hash_value_ := 0, data_ := [97, 98, 99, 0] }

/-- An object accepted by the assertion in `len` although it is one byte
shorter than the header alone: `obj_len_ = kStrHeaderSize - 1`. -/
def strHeaderMinusOne : Str :=
  { obj_len_ := kStrHeaderSize - 1, hash_value_ := 0, data_ := [] }

/-- The scan returns its starting `new_len` minus the number of consecutive
slashes it sees. -/
theorem scanLoop_eq_sub (data : List Nat) :
    ∀ i m, scanLoop data m i = m - revScan data i := by
  intro i
  induction i with
  | zero => intro m; rfl
  | succ i ih =>
    intro m
    by_cases h : data.getD i 0 = 47
    · simp only [scanLoop, revScan, if_pos h, ih]
      omega
    · simp only [scanLoop, revScan, if_neg h]
      omega

/-- Scanning a byte region downward from the end of its first `p.length` bytes
counts exactly the trailing slashes of `p`. -/
theorem revScan_append (p : List Nat) :
    ∀ r : List Nat, revScan (p ++ r) p.length = trailCount p := by
  induction p using List.reverseRecOn with
  | nil => intro r; rfl
  | append_singleton l a ih =>
    intro r
    have hget : ((l ++ [a]) ++ r).getD l.length 0 = a := by
      rw [List.append_assoc]
      rw [List.getD_append_right _ _ _ _ (Nat.le_refl _)]
      simp
    have hlen : (l ++ [a]).length = l.length + 1 := by simp
    rw [hlen]
    simp only [revScan, hget]
    have hrec : revScan ((l ++ [a]) ++ r) l.length = trailCount l := by
      rw [List.append_assoc]
      exact ih ([a] ++ r)
    have htc : trailCount (l ++ [a])
        = if a = 47 then trailCount l + 1 else 0 := by
      unfold trailCount
      rw [List.reverse_append]
      simp only [List.reverse_singleton, List.singleton_append]
      rw [List.takeWhile_cons]
      by_cases h : a = 47
      · rw [if_pos h]
        simp [h]
      · rw [if_neg h]
        have hb : (a == 47) = false := beq_eq_false_iff_ne.mpr h
        simp [hb]
    rw [htc]
    by_cases h : a = 47
    · rw [if_pos h, if_pos h, hrec]
    · rw [if_neg h, if_neg h]

theorem trailCount_le (p : List Nat) : trailCount p ≤ p.length := by
  have h := (List.takeWhile_prefix (l := p.reverse) (fun b => b == 47)).length_le
  unfold trailCount
  simpa using h

theorem trailCount_eq_length_iff (p : List Nat) :
    trailCount p = p.length ↔ ∀ b ∈ p, b = 47 := by
  unfold trailCount
  rw [← List.length_reverse p]
  constructor
  · intro h
    have heq : p.reverse.takeWhile (fun b => b == 47) = p.reverse :=
      (List.takeWhile_prefix _).eq_of_length h
    intro b hb
    have hb2 : b ∈ p.reverse := List.mem_reverse.mpr hb
    have hmem := List.mem_takeWhile_imp (heq ▸ hb2)
    simpa using hmem
  · intro h
    have heq : p.reverse.takeWhile (fun b => b == 47) = p.reverse :=
      List.takeWhile_eq_self_iff.mpr
        (by intro b hb; simpa using h b (List.mem_reverse.mp hb))
    rw [heq]

/-- A payload with no trailing slash has trailing-slash count zero. -/
theorem trailCount_eq_zero (p : List Nat) (hne : p ≠ [])
    (hlast : p.getLast? ≠ some 47) : trailCount p = 0 := by
  unfold trailCount
  cases hr : p.reverse with
  | nil => exact absurd (List.reverse_eq_nil_iff.mp hr) hne
  | cons a t =>
    have ha : p.getLast? = some a := by
      rw [← List.head?_reverse, hr]
      rfl
    have hne47 : a ≠ 47 := fun h => hlast (h ▸ ha)
    have hb : (a == 47) = false := beq_eq_false_iff_ne.mpr hne47
    rw [List.takeWhile_cons, hb]
    rfl

theorem take_append_sub (l1 l2 l3 : List Nat) (h : l3 = l1 ++ l2) :
    l3.take (l3.length - l2.length) = l1 := by
  subst h
  have hl : (l1 ++ l2).length - l2.length = l1.length := by simp
  rw [hl, List.take_left]

/-- Truncating a payload to its length minus its trailing-slash count removes
exactly the trailing slashes. -/
theorem take_sub_trailCount (p : List Nat) :
    p.take (p.length - trailCount p) = dropTrailingSlashes p := by
  have hsplit : p
      = dropTrailingSlashes p ++ (p.reverse.takeWhile (fun b => b == 47)).reverse := by
    unfold dropTrailingSlashes
    rw [← List.reverse_append, List.takeWhile_append_dropWhile, List.reverse_reverse]
  have htc : trailCount p
      = ((p.reverse.takeWhile (fun b => b == 47)).reverse).length := by
    simp [trailCount]
  rw [htc]
  exact take_append_sub _ _ _ hsplit

theorem dropTrailingSlashes_eq_nil_iff (p : List Nat) :
    dropTrailingSlashes p = [] ↔ ∀ b ∈ p, b = 47 := by
  unfold dropTrailingSlashes
  rw [List.reverse_eq_nil_iff, List.dropWhile_eq_nil_iff]
  constructor
  · intro h b hb
    have := h b (List.mem_reverse.mpr hb)
    simpa using this
  · intro h b hb
    simpa using h b (List.mem_reverse.mp hb)

theorem dropWhile_dropWhile (q : Nat → Bool) (l : List Nat) :
    (l.dropWhile q).dropWhile q = l.dropWhile q := by
  induction l with
  | nil => rfl
  | cons a l ih =>
    by_cases h : q a
    · rw [List.dropWhile_cons_of_pos h, ih]
    · rw [List.dropWhile_cons_of_neg h, List.dropWhile_cons_of_neg h]

theorem dropTrailingSlashes_idem (p : List Nat) :
    dropTrailingSlashes (dropTrailingSlashes p) = dropTrailingSlashes p := by
  unfold dropTrailingSlashes
  rw [List.reverse_reverse, dropWhile_dropWhile]

theorem rstripSpec_idem (p : List Nat) : rstripSpec (rstripSpec p) = rstripSpec p := by
  by_cases h : dropTrailingSlashes p = []
  · have h1 : rstripSpec p = p := by simp [rstripSpec, h]
    rw [h1]
    exact h1
  · have h1 : rstripSpec p = dropTrailingSlashes p := by simp [rstripSpec, h]
    rw [h1]
    simp [rstripSpec, dropTrailingSlashes_idem p, h]

theorem payload_length (s : Str) (h : WF s) : (payload s).length = (strLen s).toNat := by
  unfold payload
  rw [List.length_take]
  have h1 := h.1
  have h2 := h.2
  omega

/-- Running the scan of `rstrip_slashes` on a well-formed string yields the
length minus the number of trailing slashes of the payload. -/
theorem scanLoop_run (s : Str) (h : WF s) :
    scanLoop s.data_ (strLen s).toNat (strLen s).toNat
      = (strLen s).toNat - trailCount (payload s) := by
  rw [scanLoop_eq_sub]
  congr 1
  have hsplit : s.data_ = payload s ++ s.data_.drop (strLen s).toNat :=
    (List.take_append_drop _ _).symm
  have hpl : (payload s).length = (strLen s).toNat := payload_length s h
  calc revScan s.data_ (strLen s).toNat
      = revScan (payload s ++ s.data_.drop (strLen s).toNat) (payload s).length := by
        rw [← hsplit, hpl]
    _ = trailCount (payload s) := revScan_append _ _

theorem payload_mk (b : List Nat) : payload (mkStrFromBytes b) = b := by
  show (b ++ [0]).take (strLen (mkStrFromBytes b)).toNat = b
  have hsl : strLen (mkStrFromBytes b) = (b.length : Int) := by
    simp only [strLen, mkStrFromBytes]
    ring
  have hnat : (strLen (mkStrFromBytes b)).toNat = b.length := by
    rw [hsl]
    omega
  rw [hnat]
  exact List.take_left b [0]

theorem WF_mk (b : List Nat) : WF (mkStrFromBytes b) := by
  constructor
  · show (0 : Int) ≤ strLen (mkStrFromBytes b)
    simp only [strLen, mkStrFromBytes]
    omega
  · show ((b ++ [0]).length : Int) = strLen (mkStrFromBytes b) + 1
    simp only [strLen, mkStrFromBytes, List.length_append, List.length_singleton]
    push_cast
    ring

theorem NulOk_mk (b : List Nat) : NulOk (mkStrFromBytes b) := by
  have hnat : (strLen (mkStrFromBytes b)).toNat = b.length := by
    simp only [strLen, mkStrFromBytes]
    omega
  unfold NulOk
  rw [hnat]
  have hdata : (mkStrFromBytes b).data_ = b ++ [0] := rfl
  rw [hdata, List.getD_append_right _ _ _ _ (Nat.le_refl _)]
  simp

/-- Characterization of `rstrip_slashes` at the payload level: trailing
slashes are removed, except that an empty or all-slashes payload is returned
whole. -/
theorem rstrip_payload_eq (s : Str) (h : WF s) :
    payload (rstrip_slashes s).2 = rstripSpec (payload s) := by
  unfold rstrip_slashes
  by_cases h0 : strLen s = 0
  · rw [if_pos h0]
    have hp : payload s = [] := by
      have hpl := payload_length s h
      rw [h0] at hpl
      exact List.length_eq_zero.mp (by simpa using hpl)
    show payload s = rstripSpec (payload s)
    rw [hp]
    rfl
  · rw [if_neg h0]
    have hpl := payload_length s h
    have hrun := scanLoop_run s h
    by_cases hz : scanLoop s.data_ (strLen s).toNat (strLen s).toNat = 0
    · rw [if_pos hz]
      have hall : ∀ b ∈ payload s, b = 47 := by
        rw [← trailCount_eq_length_iff]
        have hle := trailCount_le (payload s)
        have h1 := h.1
        omega
      have hdnil : dropTrailingSlashes (payload s) = [] :=
        (dropTrailingSlashes_eq_nil_iff _).mpr hall
      show payload s = rstripSpec (payload s)
      simp [rstripSpec, hdnil]
    · rw [if_neg hz]
      have hk : trailCount (payload s) < (strLen s).toNat := by
        have hle := trailCount_le (payload s)
        omega
      show payload (mkStrFromBytes
          (s.data_.take (scanLoop s.data_ (strLen s).toNat (strLen s).toNat)))
        = rstripSpec (payload s)
      rw [payload_mk, hrun]
      have htake : s.data_.take ((strLen s).toNat - trailCount (payload s))
          = dropTrailingSlashes (payload s) := by
        have htt : (payload s).take ((strLen s).toNat - trailCount (payload s))
            = s.data_.take ((strLen s).toNat - trailCount (payload s)) := by
          unfold payload
          rw [List.take_take]
          congr 1
          omega
        rw [← take_sub_trailCount (payload s), hpl, htt]
      rw [htake]
      have hdne : dropTrailingSlashes (payload s) ≠ [] := by
        intro hnil
        have hall := (dropTrailingSlashes_eq_nil_iff _).mp hnil
        have heq := (trailCount_eq_length_iff _).mpr hall
        omega
      simp [rstripSpec, hdne]

theorem WF_rstrip (s : Str) (h : WF s) : WF (rstrip_slashes s).2 := by
  unfold rstrip_slashes
  by_cases h0 : strLen s = 0
  · rw [if_pos h0]
    exact h
  · rw [if_neg h0]
    by_cases hz : scanLoop s.data_ (strLen s).toNat (strLen s).toNat = 0
    · rw [if_pos hz]
      exact h
    · rw [if_neg hz]
      exact WF_mk _

/-- C4: `SetObjLenFromStrLen(str_len)` sets
`obj_len_ = kStrHeaderSize + str_len + 1`, and the guarded `len` then recovers
exactly `str_len`: the set/recover pair round-trips for every non-negative
`str_len`. -/
theorem C4_set_obj_len_round_trips (s : Str) (str_len : Int) (h : 0 ≤ str_len) :
    (SetObjLenFromStrLen s str_len).obj_len_ = kStrHeaderSize + str_len + 1 ∧
    len? (SetObjLenFromStrLen s str_len) = some str_len := by
  refine ⟨rfl, ?_⟩
  have hc : (SetObjLenFromStrLen s str_len).obj_len_ ≥ kStrHeaderSize - 1 := by
    simp only [SetObjLenFromStrLen, kStrHeaderSize]
    omega
  simp only [len?, if_pos hc]
  congr 1
  simp only [SetObjLenFromStrLen, kStrHeaderSize]
  omega

theorem C4_witness :
    (0 : Int) ≤ 5 ∧
    ((SetObjLenFromStrLen strAbc 5).obj_len_ = kStrHeaderSize + 5 + 1 ∧
      len? (SetObjLenFromStrLen strAbc 5) = some 5) :=
  ⟨by decide, C4_set_obj_len_round_trips strAbc 5 (by decide)⟩

/-- C5 as stated is false: `SetObjLenFromStrLen` does not write the trailing
NUL. On a fresh (default-constructed) `Str` whose uninitialized byte region is
`[1, 1]`, after `SetObjLenFromStrLen(1)` the byte `data_[1]` is still `1`,
not `0`. -/
theorem C5_counterexample :
    ¬ (SetObjLenFromStrLen (mkDefaultStr 0 [1, 1]) 1).data_.getD 1 0 = 0 := by
  decide

/-- C5 amended: `SetObjLenFromStrLen(str_len)` sets
`obj_len_ = kStrHeaderSize + str_len + 1` and leaves `data_` unchanged; it
does not write a trailing NUL, so `data_[str_len] == 0` holds afterwards iff
it already held before the call. -/
theorem C5_set_obj_len_leaves_data (s : Str) (str_len : Int) :
    (SetObjLenFromStrLen s str_len).data_ = s.data_ ∧
    (SetObjLenFromStrLen s str_len).obj_len_ = kStrHeaderSize + str_len + 1 ∧
    ((SetObjLenFromStrLen s str_len).data_.getD str_len.toNat 0 = 0 ↔
      s.data_.getD str_len.toNat 0 = 0) :=
  ⟨rfl, rfl, Iff.rfl⟩

/-- C6: the assertion `obj_len_ >= kStrHeaderSize - 1` in `len` is NOT strong
enough to enforce `len(s) >= 0`: the object with
`obj_len_ = kStrHeaderSize - 1` passes the assertion and `len` returns `-2`. -/
theorem C6_assert_admits_negative_len :
    lenOk strHeaderMinusOne ∧ len? strHeaderMinusOne = some (-2) := by
  decide

/-- C10: the default constructor sets `obj_len_ = 0`, which is below the
minimum `kStrHeaderSize - 1` demanded by the assertion in `len`; calling `len`
on a default-constructed `Str` (before `SetObjLenFromStrLen`) fires the
assertion, whatever the uninitialized hash and byte region hold. -/
theorem C10_default_ctor_fails_len_assert (hash : Int) (data : List Nat) :
    (mkDefaultStr hash data).obj_len_ = 0 ∧
    ¬ lenOk (mkDefaultStr hash data) ∧
    len? (mkDefaultStr hash data) = none :=
  ⟨rfl, by intro h; simp only [lenOk, mkDefaultStr, kStrHeaderSize] at h; omega, rfl⟩

/-- C7: `path_stat::exists` returns `true` iff the `stat` probe on the
NUL-terminated payload succeeds (non-negative return value); every failure
yields `false`, and the result depends only on the probe's return value, never
on `errno` (the second component). -/
theorem C7_exists_iff_probe (stat : List Nat → Int × Int) (path : Str) :
    (path_stat.exists_ stat path = true ↔ 0 ≤ (stat (cstr path.data_)).1) ∧
    ∀ stat2 : List Nat → Int × Int,
      (stat2 (cstr path.data_)).1 = (stat (cstr path.data_)).1 →
      path_stat.exists_ stat2 path = path_stat.exists_ stat path := by
  refine ⟨?_, ?_⟩
  · unfold path_stat.exists_
    by_cases h : (stat (cstr path.data_)).1 < 0
    · rw [if_pos h]
      simp only [Bool.false_eq_true, false_iff]
      omega
    · rw [if_neg h]
      simp only [true_iff]
      omega
  · intro stat2 h2
    unfold path_stat.exists_
    rw [h2]

theorem C7_witness :
    (path_stat.exists_ (fun _ => ((0 : Int), (0 : Int))) strAbc = true ↔
      0 ≤ ((fun _ => ((0 : Int), (0 : Int))) (cstr strAbc.data_)).1) ∧
    path_stat.exists_ (fun _ => ((0 : Int), (7 : Int))) strAbc =
      path_stat.exists_ (fun _ => ((0 : Int), (0 : Int))) strAbc :=
  ⟨(C7_exists_iff_probe (fun _ => (0, 0)) strAbc).1,
    (C7_exists_iff_probe (fun _ => (0, 0)) strAbc).2 (fun _ => (0, 7)) rfl⟩

/-- C1: on a well-formed string whose payload is non-empty and not made of
slash bytes only, `rstrip_slashes` yields a string whose payload is the input
payload with all trailing slash bytes removed. -/
theorem C1_rstrip_slashes_strips_trailing (s : Str) (hwf : WF s)
    (hne : payload s ≠ []) (hns : ¬ ∀ b ∈ payload s, b = 47) :
    payload (rstrip_slashes s).2 = dropTrailingSlashes (payload s) := by
  rw [rstrip_payload_eq s hwf]
  have hdne : dropTrailingSlashes (payload s) ≠ [] :=
    fun hnil => hns ((dropTrailingSlashes_eq_nil_iff _).mp hnil)
  simp [rstripSpec, hdne]

theorem C1_witness :
    WF strSlashAB ∧
    payload (rstrip_slashes strSlashAB).2 = dropTrailingSlashes (payload strSlashAB) ∧
    payload (rstrip_slashes strSlashAB).2 = [47, 97, 47, 98] :=
  ⟨by decide,
    C1_rstrip_slashes_strips_trailing strSlashAB (by decide) (by decide) (by decide),
    by decide⟩

/-- C2: on a well-formed string whose payload is empty or consists only of
slash bytes, `rstrip_slashes` returns its argument unchanged — the model's
`false` flag records that one of the two `return s;` paths was taken, with no
allocation. -/
theorem C2_rstrip_slashes_all_slashes_unchanged (s : Str) (hwf : WF s)
    (hall : ∀ b ∈ payload s, b = 47) :
    rstrip_slashes s = (false, s) := by
  unfold rstrip_slashes
  by_cases h0 : strLen s = 0
  · rw [if_pos h0]
  · rw [if_neg h0]
    have hz : scanLoop s.data_ (strLen s).toNat (strLen s).toNat = 0 := by
      rw [scanLoop_run s hwf]
      have hk := (trailCount_eq_length_iff (payload s)).mpr hall
      have hpl := payload_length s hwf
      omega
    rw [if_pos hz]

theorem C2_witness :
    WF strSlashes3 ∧ rstrip_slashes strSlashes3 = (false, strSlashes3) :=
  ⟨by decide, C2_rstrip_slashes_all_slashes_unchanged strSlashes3 (by decide) (by decide)⟩

/-- C3 as stated is false: on the payload `"abc"` (non-empty, no trailing
slash) `rstrip_slashes` does not return its argument — it takes the
allocating branch and builds a fresh copy, as the `true` flag records. -/
theorem C3_counterexample :
    rstrip_slashes strAbc ≠ (false, strAbc) ∧ (rstrip_slashes strAbc).1 = true := by
  decide

/-- C3 amended: on a well-formed, non-empty string with no trailing slash
byte, `rstrip_slashes` allocates a fresh string (there is no
`new_len == n` shortcut in the code) whose payload equals the input payload
unchanged; the argument itself is returned only on the `n == 0` and
`new_len == 0` paths. -/
theorem C3_rstrip_slashes_no_trailing_allocates (s : Str) (hwf : WF s)
    (hne : payload s ≠ []) (hlast : (payload s).getLast? ≠ some 47) :
    (rstrip_slashes s).1 = true ∧ payload (rstrip_slashes s).2 = payload s := by
  have hk : trailCount (payload s) = 0 := trailCount_eq_zero _ hne hlast
  have hpl := payload_length s hwf
  have hnn : 0 < (strLen s).toNat := by
    rcases Nat.eq_zero_or_pos (strLen s).toNat with h0 | h0
    · exact absurd (List.length_eq_zero.mp (hpl.trans h0)) hne
    · exact h0
  have h0 : strLen s ≠ 0 := by
    intro h
    rw [h] at hnn
    simp at hnn
  have hz : scanLoop s.data_ (strLen s).toNat (strLen s).toNat ≠ 0 := by
    rw [scanLoop_run s hwf, hk]
    omega
  constructor
  · unfold rstrip_slashes
    rw [if_neg h0, if_neg hz]
  · rw [rstrip_payload_eq s hwf]
    have hdrop : dropTrailingSlashes (payload s) = payload s := by
      have ht := take_sub_trailCount (payload s)
      rw [hk] at ht
      simpa using ht.symm
    simp [rstripSpec, hdrop, hne]

theorem C3_witness :
    WF strAbc ∧
    ((rstrip_slashes strAbc).1 = true ∧
      payload (rstrip_slashes strAbc).2 = payload strAbc) :=
  ⟨by decide,
    C3_rstrip_slashes_no_trailing_allocates strAbc (by decide) (by decide) (by decide)⟩

/-- C8: every string returned by `rstrip_slashes` satisfies the
NUL-termination invariant `data_[len] == 0` — on the allocating branch the
code writes the byte, on the `return s;` branches it is inherited from the
input. -/
theorem C8_rstrip_slashes_nul_terminated (s : Str) (hwf : WF s) (hnul : NulOk s) :
    NulOk (rstrip_slashes s).2 := by
  unfold rstrip_slashes
  by_cases h0 : strLen s = 0
  · rw [if_pos h0]
    exact hnul
  · rw [if_neg h0]
    by_cases hz : scanLoop s.data_ (strLen s).toNat (strLen s).toNat = 0
    · rw [if_pos hz]
      exact hnul
    · rw [if_neg hz]
      exact NulOk_mk _

theorem C8_witness :
    (WF strSlashAB ∧ NulOk strSlashAB) ∧ NulOk (rstrip_slashes strSlashAB).2 :=
  ⟨by decide, C8_rstrip_slashes_nul_terminated strSlashAB (by decide) (by decide)⟩

/-- C9: `rstrip_slashes` is idempotent on payloads: applying it to its own
result leaves the payload unchanged, since the first result either ends in a
non-slash byte, is all slashes, or is empty. -/
theorem C9_rstrip_slashes_idempotent (s : Str) (hwf : WF s) :
    payload (rstrip_slashes (rstrip_slashes s).2).2 = payload (rstrip_slashes s).2 := by
  rw [rstrip_payload_eq _ (WF_rstrip s hwf), rstrip_payload_eq s hwf, rstripSpec_idem]

theorem C9_witness :
    WF strSlashAB ∧
    payload (rstrip_slashes (rstrip_slashes strSlashAB).2).2
      = payload (rstrip_slashes strSlashAB).2 :=
  ⟨by decide, C9_rstrip_slashes_idempotent strSlashAB (by decide)⟩

end OilStr
